import Mathlib

/-!
Heteroflow: the node / dependency-graph data model of `heteroflow/core/graph.hpp`.

A shallow embedding of `hf::Node`, its four payload kinds and `Node::_precede`.

* Nodes live in a heap (`Graph`), a list of nodes; a `Node*` is an index into it.
* `std::vector<Node*>` is a list of node pointers, `push_back` appends at the end.
* `std::atomic<int>` is an `Int` kept in the range of a 32-bit `int`; `fetch_add`
  wraps around in two's complement, as the C++ standard prescribes for atomic
  signed integers.
* `size_t` is a natural number below `2 ^ 64`; products are reduced modulo `2 ^ 64`.
* Calls into the device runtime (`cudaSetDevice`, `cudaFree`, a kernel launch) are
  recorded in an effect trace.
-/

namespace hf

/-! ## Machine integers -/

/-- Number of values of a `size_t` (64-bit). -/
def SIZE_MODULUS : Nat := 2 ^ 64

/-- Largest value of an `int` (32-bit). -/
def INT_MAX : Int := 2 ^ 31 - 1

/-- Smallest value of an `int` (32-bit). -/
def INT_MIN : Int := -(2 ^ 31)

/-- Multiplication of two `size_t` values (unsigned, wraps modulo `2 ^ 64`). -/
def size_t_mul (x y : Nat) : Nat := (x * y) % SIZE_MODULUS

/-- Conversion of an integer to `int`: two's complement wrap-around into
`[INT_MIN, INT_MAX]`. -/
def wrapInt (x : Int) : Int := (x + 2 ^ 31) % 2 ^ 32 - 2 ^ 31

/-- The value stored by `std::atomic<int>::fetch_add(arg)` when the atomic holds
`cur`: the sum, computed without undefined behaviour, wrapped to `int`. -/
def fetch_add (cur arg : Int) : Int := wrapInt (cur + arg)

/-! ## Pointers -/

/-- A data pointer (`void*`); `0` is `nullptr`. -/
abbrev Ptr := Nat

/-- The null data pointer. -/
def nullptr : Ptr := 0

/-- A non-null `Node*`: the index of the node in the heap. -/
abbrev NodePtr := Nat

/-! ## Device runtime calls -/

/-- One call into the device runtime. -/
inductive DeviceCall where
  | cudaSetDevice (device : Int)
  | cudaFree (d_data : Ptr)
  | launch (func : Nat) (grid block : Nat) (args : List Nat)  -- func<<<grid, block>>>(args...)
  deriving DecidableEq, Repr

/-! ## Payloads -/

/-- Payload `Node::Host`: `work` is the stored callable (`none`: empty function). -/
structure Host where
  work : Option Nat := none
  deriving DecidableEq, Repr

/-- Constructor `Host(C&&)`: `work` is initialised from the callable. `none` is a
callable that leaves a `std::function` empty (a null function pointer, an empty
`std::function`); `some f` is any other callable. -/
def Host.ctor (callable : Option Nat) : Host := { work := callable }

/-- Payload `Node::Pull`, with its default member initialisers. -/
structure Pull where
  device : Int := 0
  h_data : Ptr := nullptr
  d_data : Ptr := nullptr
  h_size : Nat := 0
  d_size : Nat := 0
  deriving DecidableEq, Repr

/-- Constructor `Pull(const T* data, size_t N)`; `sizeofT` is `sizeof(T)`. -/
def Pull.ctor (data : Ptr) (N : Nat) (sizeofT : Nat) : Pull :=
  { h_data := data, h_size := size_t_mul N sizeofT }

/-- Destructor `~Pull()`: the device calls it makes. -/
def Pull.dtor (p : Pull) : List DeviceCall :=
  if p.d_data ≠ nullptr then
    [DeviceCall.cudaSetDevice p.device, DeviceCall.cudaFree p.d_data]
  else
    []

/-- Default constructor `Pull() = default`: every member takes its default
member initialiser. -/
def Pull.ctor_default : Pull := {}

/-- The implicitly declared copy constructor `Pull(const Pull&)`: `Pull` declares
a destructor but no copy operation, so the copy is member by member. -/
def Pull.copy (other : Pull) : Pull :=
  { device := other.device, h_data := other.h_data, d_data := other.d_data,
    h_size := other.h_size, d_size := other.d_size }

/-- The implicitly declared copy assignment `Pull& operator=(const Pull&)`,
giving the new value of the target `self`: every member is overwritten by the
one of `other`; no destructor runs. -/
def Pull.assign (_self other : Pull) : Pull :=
  { device := other.device, h_data := other.h_data, d_data := other.d_data,
    h_size := other.h_size, d_size := other.d_size }

/-- Destruction of several live Pull payloads, one after the other. -/
def Pull.dtor_all (ps : List Pull) : List DeviceCall := ps.flatMap Pull.dtor

/-- Payload `Node::Push`; `source` is a `Node*` (`none`: `nullptr`). -/
structure Push where
  h_data : Ptr := nullptr
  source : Option NodePtr := none
  h_size : Nat := 0
  deriving DecidableEq, Repr

/-- Constructor `Push(T* tgt, Node* src, size_t N)`; `sizeofT` is `sizeof(T)`. -/
def Push.ctor (tgt : Ptr) (src : Option NodePtr) (N : Nat) (sizeofT : Nat) : Push :=
  { h_data := tgt, source := src, h_size := size_t_mul N sizeofT }

/-- CUDA `dim3`: every component defaults to 1. -/
structure dim3 where
  x : Nat := 1
  y : Nat := 1
  z : Nat := 1
  deriving DecidableEq, Repr

/-- Payload `Node::Kernel`; `stream` has no initialiser (`none`: not set). -/
structure Kernel where
  device : Int := 0
  grid : dim3 := {}
  block : dim3 := {}
  shm_size : Nat := 0
  stream : Option Ptr := none
  deriving DecidableEq, Repr

/-- A C++ type, as far as the checks of the Kernel constructor tell types apart. -/
inductive CType where
  | void
  | size_t
  | int
  | float
  | pointer (pointee : CType)
  deriving DecidableEq, Repr

/-- Modelled from the spec: `function_traits<F>` of `facility/facility.hpp`, which
is not among the sources. It describes the signature of the callable `F`: its
return type and the types of its formal parameters, in order. -/
structure function_traits where
  return_type : CType
  arguments : List CType
  deriving DecidableEq, Repr

/-- `function_traits<F>::arity`: the number of formal parameters. -/
def function_traits.arity (t : function_traits) : Nat := t.arguments.length

/-- `function_traits<F>::argument<i>::type` (`none`: there is no such parameter). -/
def function_traits.argument (t : function_traits) (i : Nat) : Option CType :=
  t.arguments[i]?

/-- The arithmetic types. -/
def CType.is_arithmetic : CType → Bool
  | CType.size_t => true
  | CType.int => true
  | CType.float => true
  | _ => false

/-- Whether an argument of type `src` can initialise a parameter of type `dst`:
arithmetic types convert into one another, a pointer converts to a pointer of
the same pointee type or to `void*`. -/
def convertible (src dst : CType) : Bool :=
  match src, dst with
  | CType.pointer a, CType.pointer b => decide (a = b) || decide (b = CType.void)
  | a, b => a.is_arithmetic && b.is_arithmetic

/-- Whether the launch `func<<<2, 2>>>(args...)` is well formed for a kernel
function `func` of signature `t`: a call through `func` takes as many arguments
as `func` has parameters, each convertible to its parameter type. -/
def launch_well_formed (t : function_traits) (argTypes : List CType) : Bool :=
  decide (argTypes.length = t.arguments.length) &&
    (List.zipWith convertible argTypes t.arguments).all id

/-- The outcome of instantiating and running the Kernel constructor. -/
inductive Instantiation where
  | accepted (k : Kernel) (calls : List DeviceCall)
  | static_assertion_failed
  | launch_ill_formed
  deriving DecidableEq, Repr

/-- Constructor `Kernel(F&& func, ArgsT&&... args)`; `Traits` is
`function_traits<F>` and each argument comes with its type. The three static
assertions are checked, then the launch `func<<<2, 2>>>(args...)`; when all of it
compiles, construction leaves every member at its default and makes the launch. -/
def Kernel.ctor (Traits : function_traits) (func : Nat) (args : List (CType × Nat)) :
    Instantiation :=
  -- static_assert(Traits::arity == 2,"");
  if Traits.arity ≠ 2 then Instantiation.static_assertion_failed
  -- static_assert(std::is_same<typename Traits::return_type,void>::value,"");
  else if Traits.return_type ≠ CType.void then Instantiation.static_assertion_failed
  -- static_assert(std::is_same<typename Traits::argument<0>::type, size_t>::value, "");
  else if Traits.argument 0 ≠ some CType.size_t then Instantiation.static_assertion_failed
  -- func<<<2, 2>>>(std::forward<ArgsT>(args)...);
  else if launch_well_formed Traits (args.map Prod.fst) then
    Instantiation.accepted {} [DeviceCall.launch func 2 2 (args.map Prod.snd)]
  else Instantiation.launch_ill_formed

/-- The variant `nonstd::variant<Host, Pull, Push, Kernel>`. -/
inductive Handle where
  | host (h : Host)
  | pull (p : Pull)
  | push (p : Push)
  | kernel (k : Kernel)
  deriving DecidableEq, Repr

/-- Destruction of the variant: the destructor of the active alternative runs;
only `Pull` has a user-written destructor. -/
def Handle.dtor : Handle → List DeviceCall
  | Handle.pull p => p.dtor
  | _ => []

/-! ## Nodes -/

/-- Class `Node`. -/
structure Node where
  _name : String := ""
  _handle : Handle
  _successors : List NodePtr := []
  _dependents : List NodePtr := []
  _num_dependents : Int := 0
  deriving DecidableEq, Repr

/-- Constructor `Node(ArgsT&&...)`: the arguments build the payload, every other
member takes its default. -/
def Node.ctor (handle : Handle) : Node := { _handle := handle }

/-- Destruction of a node: its members are destroyed, of which only the payload
can make device calls. -/
def Node.dtor (n : Node) : List DeviceCall := n._handle.dtor

def Node.is_host (n : Node) : Bool :=
  match n._handle with
  | Handle.host _ => true
  | _ => false

def Node.is_pull (n : Node) : Bool :=
  match n._handle with
  | Handle.pull _ => true
  | _ => false

def Node.is_push (n : Node) : Bool :=
  match n._handle with
  | Handle.push _ => true
  | _ => false

def Node.is_kernel (n : Node) : Bool :=
  match n._handle with
  | Handle.kernel _ => true
  | _ => false

/-! ## The graph and `_precede` -/

/-- The heap of nodes; `g[p]?` dereferences the node pointer `p`. -/
abbrev Graph := List Node

/-- `Node::_precede`, called on the node at `self` with argument `rhs`.
The three statements run in order, each on the heap left by the one before;
dereferencing a pointer to no live node gives `none`. -/
def _precede (g : Graph) (self rhs : NodePtr) : Option Graph :=
  match g[self]? with
  | none => none
  | some a =>
    -- _successors.push_back(rhs);
    let g1 := g.set self { a with _successors := a._successors ++ [rhs] }
    match g1[rhs]? with
    | none => none
    | some b =>
      -- rhs->_dependents.push_back(this);
      let g2 := g1.set rhs { b with _dependents := b._dependents ++ [self] }
      match g2[rhs]? with
      | none => none
      | some b2 =>
        -- rhs->_num_dependents.fetch_add(1, std::memory_order_relaxed);
        some (g2.set rhs { b2 with _num_dependents := fetch_add b2._num_dependents 1 })

/-- A sequence of `_precede` calls, `(a, b)` standing for `a->_precede(b)`. -/
def precedeAll (g : Graph) : List (NodePtr × NodePtr) → Option Graph
  | [] => some g
  | (a, b) :: calls =>
    match _precede g a b with
    | none => none
    | some g1 => precedeAll g1 calls

/-- Freshly constructed nodes, one for each payload. -/
def freshGraph (handles : List Handle) : Graph := handles.map Node.ctor

/-- Destruction of the node at `p`. -/
def destroy (g : Graph) (p : NodePtr) : Option (List DeviceCall) :=
  (g[p]?).map Node.dtor

/-- Number of nodes of the graph whose payload is a `Push` with `source == p`. -/
def pushReferences (g : Graph) (p : NodePtr) : Nat :=
  g.countP (fun n =>
    match n._handle with
    | Handle.push q => decide (q.source = some p)
    | _ => false)

/-! ## Auxiliary definitions -/

/-- What `self->_precede(rhs)` does to the node stored at `i`: the node at `self`
gets `rhs` pushed on its successors, then the node at `rhs` gets `self` pushed on
its dependents and its counter incremented. -/
def precedeNode (self rhs i : NodePtr) (n : Node) : Node :=
  let n1 := if i = self then { n with _successors := n._successors ++ [rhs] } else n
  if i = rhs then
    { n1 with _dependents := n1._dependents ++ [self],
              _num_dependents := fetch_add n1._num_dependents 1 }
  else n1

/-- What a sequence of `_precede` calls does to the node stored at `i`. -/
def precedeAllNode (calls : List (NodePtr × NodePtr)) (i : NodePtr) (n : Node) : Node :=
  calls.foldl (fun m c => precedeNode c.1 c.2 i m) n

/-- The calls `(1, 0), (2, 0), ..., (k, 0)`: `k` distinct predecessors for node 0. -/
def fanIn (k : Nat) : List (NodePtr × NodePtr) := (List.range k).map (fun i => (i + 1, 0))

/-! ## The effect of `_precede` on each node -/

theorem precede_live {g g1 : Graph} {a b : NodePtr} (h : _precede g a b = some g1) :
    a < g.length ∧ b < g.length := by
  unfold _precede at h
  split at h
  · exact absurd h (by simp)
  · rename_i na hna
    have ha : a < g.length := (List.getElem?_eq_some_iff.mp hna).1
    refine ⟨ha, ?_⟩
    by_contra hb
    have : (g.set a { na with _successors := na._successors ++ [b] })[b]? = none := by
      apply List.getElem?_eq_none
      simp only [List.length_set]
      exact Nat.le_of_not_lt hb
    simp [this] at h

theorem precede_getElem? {g g1 : Graph} {a b : NodePtr} (h : _precede g a b = some g1)
    (i : Nat) : g1[i]? = (g[i]?).map (precedeNode a b i) := by
  have hl := precede_live h
  unfold _precede at h
  split at h
  · exact absurd h (by simp)
  · rename_i na hna
    simp only at h
    split at h
    · exact absurd h (by simp)
    · rename_i nb hnb
      split at h
      · exact absurd h (by simp)
      · rename_i nb2 hnb2
        simp only [Option.some.injEq] at h
        subst h
        simp only [List.getElem?_set, List.length_set] at hnb hnb2 ⊢
        simp only [hl.1, hl.2, if_true] at hnb hnb2 ⊢
        simp only [if_true, Option.some.injEq] at hnb2
        subst hnb2
        by_cases hib : b = i
        · subst hib
          by_cases hab : a = b
          · subst hab
            simp only [if_true, Option.some.injEq] at hnb
            subst hnb
            simp [hna, precedeNode]
          · simp only [hab, if_false] at hnb
            have hba : ¬ b = a := fun e => hab e.symm
            simp [hnb, precedeNode, hba]
        · have hib2 : ¬ i = b := fun e => hib e.symm
          by_cases hia : a = i
          · subst hia
            simp [hib, hna, precedeNode, hib2]
          · have hia2 : ¬ i = a := fun e => hia e.symm
            simp only [hib, hia, if_false]
            cases hgi : g[i]? <;> simp [precedeNode, hib2, hia2]

theorem precede_length {g g1 : Graph} {a b : NodePtr} (h : _precede g a b = some g1) :
    g1.length = g.length := by
  unfold _precede at h
  split at h
  · exact absurd h (by simp)
  · simp only at h
    split at h
    · exact absurd h (by simp)
    · split at h
      · exact absurd h (by simp)
      · simp only [Option.some.injEq] at h
        subst h
        simp

theorem precede_total (g : Graph) (a b : NodePtr) (ha : a < g.length) (hb : b < g.length) :
    ∃ g1, _precede g a b = some g1 := by
  unfold _precede
  have h1 : g[a]? = some g[a] := List.getElem?_eq_getElem ha
  rw [h1]
  simp only
  have hb1 : b < (g.set a { g[a] with _successors := g[a]._successors ++ [b] }).length := by
    simpa using hb
  rw [List.getElem?_eq_getElem hb1]
  simp only
  rw [List.getElem?_eq_getElem (by simpa using hb)]
  exact ⟨_, rfl⟩

@[simp] theorem precedeNode_successors (a b i : NodePtr) (n : Node) :
    (precedeNode a b i n)._successors
      = if i = a then n._successors ++ [b] else n._successors := by
  unfold precedeNode
  split_ifs <;> rfl

@[simp] theorem precedeNode_dependents (a b i : NodePtr) (n : Node) :
    (precedeNode a b i n)._dependents
      = if i = b then n._dependents ++ [a] else n._dependents := by
  unfold precedeNode
  split_ifs <;> rfl

@[simp] theorem precedeNode_num_dependents (a b i : NodePtr) (n : Node) :
    (precedeNode a b i n)._num_dependents
      = if i = b then fetch_add n._num_dependents 1 else n._num_dependents := by
  unfold precedeNode
  split_ifs <;> rfl

@[simp] theorem precedeNode_name (a b i : NodePtr) (n : Node) :
    (precedeNode a b i n)._name = n._name := by
  unfold precedeNode
  split_ifs <;> rfl

@[simp] theorem precedeNode_handle (a b i : NodePtr) (n : Node) :
    (precedeNode a b i n)._handle = n._handle := by
  unfold precedeNode
  split_ifs <;> rfl

/-! ## Wrap-around of the counter -/

theorem wrapInt_of_range {x : Int} (h1 : INT_MIN ≤ x) (h2 : x ≤ INT_MAX) : wrapInt x = x := by
  unfold wrapInt
  unfold INT_MIN at h1
  unfold INT_MAX at h2
  omega

theorem wrapInt_wrapInt_add (x y : Int) : wrapInt (wrapInt x + y) = wrapInt (x + y) := by
  unfold wrapInt
  omega

theorem wrapInt_idem (x : Int) : wrapInt (wrapInt x) = wrapInt x := by
  unfold wrapInt
  omega

theorem fetch_add_one_of_lt {c : Int} (h1 : INT_MIN ≤ c) (h2 : c < INT_MAX) :
    fetch_add c 1 = c + 1 := by
  unfold fetch_add
  apply wrapInt_of_range
  · unfold INT_MIN at *
    omega
  · unfold INT_MAX at *
    omega

theorem fetch_add_INT_MAX : fetch_add INT_MAX 1 = INT_MIN := by decide

/-! ## The effect of a sequence of `_precede` calls on each node -/

theorem precedeAll_getElem? {calls : List (NodePtr × NodePtr)} {g g1 : Graph}
    (h : precedeAll g calls = some g1) (i : Nat) :
    g1[i]? = (g[i]?).map (precedeAllNode calls i) := by
  induction calls generalizing g with
  | nil =>
    simp only [precedeAll, Option.some.injEq] at h
    subst h
    cases g[i]? <;> simp [precedeAllNode]
  | cons c cs ih =>
    obtain ⟨a, b⟩ := c
    simp only [precedeAll] at h
    split at h
    · exact absurd h (by simp)
    · rename_i g2 hg2
      rw [ih h, precede_getElem? hg2 i]
      cases g[i]? <;> simp [precedeAllNode]

theorem precedeAll_length {calls : List (NodePtr × NodePtr)} {g g1 : Graph}
    (h : precedeAll g calls = some g1) : g1.length = g.length := by
  induction calls generalizing g with
  | nil =>
    simp only [precedeAll, Option.some.injEq] at h
    subst h
    rfl
  | cons c cs ih =>
    obtain ⟨a, b⟩ := c
    simp only [precedeAll] at h
    split at h
    · exact absurd h (by simp)
    · rename_i g2 hg2
      rw [ih h, precede_length hg2]

theorem precedeAll_total (calls : List (NodePtr × NodePtr)) (g : Graph)
    (hlive : ∀ c ∈ calls, c.1 < g.length ∧ c.2 < g.length) :
    ∃ g1, precedeAll g calls = some g1 := by
  induction calls generalizing g with
  | nil => exact ⟨g, rfl⟩
  | cons c cs ih =>
    obtain ⟨a, b⟩ := c
    have hab := hlive (a, b) (List.mem_cons_self _ _)
    obtain ⟨g2, hg2⟩ := precede_total g a b hab.1 hab.2
    have hlen := precede_length hg2
    have := ih g2 (fun c hc => by
      rw [hlen]
      exact hlive c (List.mem_cons_of_mem _ hc))
    obtain ⟨g3, hg3⟩ := this
    exact ⟨g3, by simp [precedeAll, hg2, hg3]⟩

theorem precedeAllNode_successors (calls : List (NodePtr × NodePtr)) (i : NodePtr) (n : Node) :
    (precedeAllNode calls i n)._successors
      = n._successors ++ (calls.filter (fun c => decide (c.1 = i))).map Prod.snd := by
  induction calls generalizing n with
  | nil => simp [precedeAllNode]
  | cons c cs ih =>
    have : precedeAllNode (c :: cs) i n = precedeAllNode cs i (precedeNode c.1 c.2 i n) := rfl
    rw [this, ih]
    by_cases h : c.1 = i
    · simp [h, List.filter_cons]
    · have h2 : ¬ i = c.1 := fun e => h e.symm
      simp [h, h2, List.filter_cons]

theorem precedeAllNode_dependents (calls : List (NodePtr × NodePtr)) (i : NodePtr) (n : Node) :
    (precedeAllNode calls i n)._dependents
      = n._dependents ++ (calls.filter (fun c => decide (c.2 = i))).map Prod.fst := by
  induction calls generalizing n with
  | nil => simp [precedeAllNode]
  | cons c cs ih =>
    have : precedeAllNode (c :: cs) i n = precedeAllNode cs i (precedeNode c.1 c.2 i n) := rfl
    rw [this, ih]
    by_cases h : c.2 = i
    · simp [h, List.filter_cons]
    · have h2 : ¬ i = c.2 := fun e => h e.symm
      simp [h, h2, List.filter_cons]

theorem precedeAllNode_num_dependents (calls : List (NodePtr × NodePtr)) (i : NodePtr)
    (n : Node) (hn : wrapInt n._num_dependents = n._num_dependents) :
    (precedeAllNode calls i n)._num_dependents
      = wrapInt (n._num_dependents
          + ((calls.filter (fun c => decide (c.2 = i))).length : Int)) := by
  induction calls generalizing n with
  | nil => simp [precedeAllNode, hn]
  | cons c cs ih =>
    have : precedeAllNode (c :: cs) i n = precedeAllNode cs i (precedeNode c.1 c.2 i n) := rfl
    rw [this]
    by_cases h : c.2 = i
    · have h2 : i = c.2 := h.symm
      rw [ih]
      · simp only [precedeNode_num_dependents, h2, if_true, fetch_add, List.filter_cons,
          decide_True, List.length_cons]
        rw [wrapInt_wrapInt_add]
        congr 1
        push_cast
        ring
      · simp only [precedeNode_num_dependents, h2, if_true, fetch_add]
        exact wrapInt_idem _
    · have h2 : ¬ i = c.2 := fun e => h e.symm
      rw [ih]
      · simp [h, h2, List.filter_cons]
      · simpa [h2] using hn

theorem precedeAllNode_name (calls : List (NodePtr × NodePtr)) (i : NodePtr) (n : Node) :
    (precedeAllNode calls i n)._name = n._name := by
  induction calls generalizing n with
  | nil => rfl
  | cons c cs ih =>
    have : precedeAllNode (c :: cs) i n = precedeAllNode cs i (precedeNode c.1 c.2 i n) := rfl
    rw [this, ih, precedeNode_name]

theorem precedeAllNode_handle (calls : List (NodePtr × NodePtr)) (i : NodePtr) (n : Node) :
    (precedeAllNode calls i n)._handle = n._handle := by
  induction calls generalizing n with
  | nil => rfl
  | cons c cs ih =>
    have : precedeAllNode (c :: cs) i n = precedeAllNode cs i (precedeNode c.1 c.2 i n) := rfl
    rw [this, ih, precedeNode_handle]

theorem freshGraph_getElem? {hs : List Handle} {i : Nat} {n : Node}
    (h : (freshGraph hs)[i]? = some n) : ∃ hd, n = Node.ctor hd := by
  unfold freshGraph at h
  rw [List.getElem?_map] at h
  cases hh : hs[i]? with
  | none => simp [hh] at h
  | some hd =>
    simp only [hh, Option.map_some', Option.some.injEq] at h
    exact ⟨hd, h.symm⟩

/-- Every node of a graph reached from fresh nodes by `_precede` calls: its
adjacency lists are the calls that touched it, in order, and its counter is the
number of calls aimed at it, wrapped to `int`. -/
theorem precedeAll_fresh_node {hs : List Handle} {calls : List (NodePtr × NodePtr)}
    {g : Graph} {i : NodePtr} {n : Node}
    (h : precedeAll (freshGraph hs) calls = some g) (hn : g[i]? = some n) :
    n._successors = (calls.filter (fun c => decide (c.1 = i))).map Prod.snd ∧
    n._dependents = (calls.filter (fun c => decide (c.2 = i))).map Prod.fst ∧
    n._num_dependents
      = wrapInt (((calls.filter (fun c => decide (c.2 = i))).length : Nat) : Int) := by
  rw [precedeAll_getElem? h i] at hn
  cases h0 : (freshGraph hs)[i]? with
  | none => simp [h0] at hn
  | some n0 =>
    obtain ⟨hd, rfl⟩ := freshGraph_getElem? h0
    simp only [h0, Option.map_some', Option.some.injEq] at hn
    subst hn
    refine ⟨?_, ?_, ?_⟩
    · rw [precedeAllNode_successors]
      simp [Node.ctor]
    · rw [precedeAllNode_dependents]
      simp [Node.ctor]
    · rw [precedeAllNode_num_dependents _ _ _ rfl]
      simp [Node.ctor]

theorem wrapInt_natCast_of_lt {k : Nat} (hk : k < 2 ^ 31) : wrapInt (k : Int) = k := by
  apply wrapInt_of_range
  · unfold INT_MIN
    omega
  · unfold INT_MAX
    omega

theorem count_filter_fst_map_snd (calls : List (NodePtr × NodePtr)) (a b : NodePtr) :
    ((calls.filter (fun c => decide (c.1 = a))).map Prod.snd).count b = calls.count (a, b) := by
  induction calls with
  | nil => rfl
  | cons c cs ih =>
    obtain ⟨x, y⟩ := c
    by_cases hx : x = a
    · by_cases hy : y = b
      · subst hx
        subst hy
        simp [List.filter_cons, ih]
      · have hne : ¬ ((x, y) = (a, b)) := fun e => hy (Prod.mk.inj e).2
        simp [List.filter_cons, hx, hy, ih, List.count_cons, hne]
    · have hne : ¬ ((x, y) = (a, b)) := fun e => hx (Prod.mk.inj e).1
      simp [List.filter_cons, hx, ih, List.count_cons, hne]

theorem count_filter_snd_map_fst (calls : List (NodePtr × NodePtr)) (a b : NodePtr) :
    ((calls.filter (fun c => decide (c.2 = b))).map Prod.fst).count a = calls.count (a, b) := by
  induction calls with
  | nil => rfl
  | cons c cs ih =>
    obtain ⟨x, y⟩ := c
    by_cases hy : y = b
    · by_cases hx : x = a
      · subst hx
        subst hy
        simp [List.filter_cons, ih]
      · have hne : ¬ ((x, y) = (a, b)) := fun e => hx (Prod.mk.inj e).1
        simp [List.filter_cons, hx, hy, ih, List.count_cons, hne]
    · have hne : ¬ ((x, y) = (a, b)) := fun e => hy (Prod.mk.inj e).2
      simp [List.filter_cons, hy, ih, List.count_cons, hne]

/-- After `k` calls `a->_precede(b)` on fresh nodes, the node at `b` has `k`
dependents and its counter is `k` wrapped to `int`. -/
theorem precedeAll_replicate (hs : List Handle) (a b : NodePtr) (k : Nat)
    (ha : a < hs.length) (hb : b < hs.length) :
    (precedeAll (freshGraph hs) (List.replicate k (a, b))).bind
        (fun g => (g[b]?).map (fun n => (n._num_dependents, n._dependents.length)))
      = some (wrapInt (k : Int), k) := by
  have hlive : ∀ c ∈ List.replicate k (a, b),
      c.1 < (freshGraph hs).length ∧ c.2 < (freshGraph hs).length := by
    intro c hc
    rw [List.eq_of_mem_replicate hc]
    simpa [freshGraph] using And.intro ha hb
  obtain ⟨g, hg⟩ := precedeAll_total _ _ hlive
  have hlen : g.length = hs.length := by
    rw [precedeAll_length hg]
    simp [freshGraph]
  have hbg : b < g.length := hlen ▸ hb
  have hgb : g[b]? = some g[b] := List.getElem?_eq_getElem hbg
  obtain ⟨-, h2, h3⟩ := precedeAll_fresh_node hg hgb
  have hf : (List.replicate k (a, b)).filter (fun c => decide (c.2 = b))
      = List.replicate k (a, b) := by
    apply List.filter_eq_self.mpr
    intro c hc
    rw [List.eq_of_mem_replicate hc]
    simp
  rw [hf] at h2 h3
  rw [hg]
  simp only [Option.some_bind, hgb, Option.map_some', h2, h3, List.length_map,
    List.length_replicate]

theorem precedeAll_append (g : Graph) (xs ys : List (NodePtr × NodePtr)) :
    precedeAll g (xs ++ ys) = (precedeAll g xs).bind (fun g1 => precedeAll g1 ys) := by
  induction xs generalizing g with
  | nil => rfl
  | cons c cs ih =>
    obtain ⟨a, b⟩ := c
    simp only [List.cons_append, precedeAll]
    cases _precede g a b with
    | none => rfl
    | some g1 => exact ih g1

theorem precedeAll_singleton (g : Graph) (a b : NodePtr) :
    precedeAll g [(a, b)] = _precede g a b := by
  simp only [precedeAll]
  cases _precede g a b <;> rfl

/-- After `k` calls `a->_precede(b)` on fresh nodes, one more such call leaves the
node at `b` with `k + 1` dependents and the counter `k + 1` wrapped to `int`. -/
theorem precedeAll_replicate_then (hs : List Handle) (a b : NodePtr) (k : Nat)
    (ha : a < hs.length) (hb : b < hs.length) :
    ((precedeAll (freshGraph hs) (List.replicate k (a, b))).bind
        (fun g => _precede g a b)).bind
        (fun g => (g[b]?).map (fun n => (n._num_dependents, n._dependents.length)))
      = some (wrapInt ((k + 1 : Nat) : Int), k + 1) := by
  have h := precedeAll_replicate hs a b (k + 1) ha hb
  rw [List.replicate_succ', precedeAll_append] at h
  simp only [precedeAll_singleton] at h
  exact h

/-! ## C1 -/

/-- C1 (counterexample): on two fresh nodes, 2147483647 calls `0->_precede(1)`
leave node 1 with the counter at `INT_MAX`; the next call `0->_precede(1)` leaves
the counter at -2147483648, which is not the old value plus 1. -/
theorem precede_counter_overflow :
    (precedeAll (freshGraph [Handle.host {}, Handle.host {}])
        (List.replicate 2147483647 (0, 1))).bind
        (fun g => (g[1]?).map (fun n => (n._num_dependents, n._dependents.length)))
      = some (2147483647, 2147483647)
    ∧ ((precedeAll (freshGraph [Handle.host {}, Handle.host {}])
        (List.replicate 2147483647 (0, 1))).bind
        (fun g => _precede g 0 1)).bind
        (fun g => (g[1]?).map (fun n => (n._num_dependents, n._dependents.length)))
      = some (-2147483648, 2147483648)
    ∧ (-2147483648 : Int) ≠ 2147483647 + 1 := by
  refine ⟨?_, ?_, by decide⟩
  · have h := precedeAll_replicate [Handle.host {}, Handle.host {}] 0 1 2147483647
      (by decide) (by decide)
    rw [show wrapInt ((2147483647 : Nat) : Int) = 2147483647 from by decide] at h
    exact h
  · have h := precedeAll_replicate_then [Handle.host {}, Handle.host {}] 0 1 2147483647
      (by decide) (by decide)
    rw [show wrapInt ((2147483647 + 1 : Nat) : Int) = -2147483648 from by decide] at h
    exact h

/-- C1 (amended): for distinct live nodes `a` and `b` in any graph state,
`a->_precede(b)` completes and yields a state in which `a`'s successors are the old
ones with `b` appended at the end and `b`'s dependents are the old ones with `a`
appended at the end; `b`'s counter is the old value plus 1 when the old value is
an `int` below `INT_MAX`, and `INT_MIN` when the old value is `INT_MAX`. -/
theorem precede_effect (g : Graph) (a b : NodePtr) (na nb : Node)
    (_hab : a ≠ b) (ha : g[a]? = some na) (hb : g[b]? = some nb) :
    ∃ g1 na1 nb1, _precede g a b = some g1 ∧ g1[a]? = some na1 ∧ g1[b]? = some nb1 ∧
      na1._successors = na._successors ++ [b] ∧
      nb1._dependents = nb._dependents ++ [a] ∧
      (INT_MIN ≤ nb._num_dependents → nb._num_dependents < INT_MAX →
        nb1._num_dependents = nb._num_dependents + 1) ∧
      (nb._num_dependents = INT_MAX → nb1._num_dependents = INT_MIN) := by
  obtain ⟨g1, hg1⟩ := precede_total g a b (List.getElem?_eq_some_iff.mp ha).1
    (List.getElem?_eq_some_iff.mp hb).1
  refine ⟨g1, precedeNode a b a na, precedeNode a b b nb, hg1, ?_, ?_, ?_, ?_, ?_, ?_⟩
  · rw [precede_getElem? hg1, ha]
    rfl
  · rw [precede_getElem? hg1, hb]
    rfl
  · simp
  · simp
  · intro hmin hmax
    simp only [precedeNode_num_dependents, if_true]
    exact fetch_add_one_of_lt hmin hmax
  · intro hmax
    simp only [precedeNode_num_dependents, if_true, hmax]
    exact fetch_add_INT_MAX

/-- C1 (witness): `precede_effect` on two nodes already linked by `0->_precede(1)`:
the lists grow by one entry and the counter goes from 1 to 2. -/
theorem precede_effect_witness :
    ∃ g1 na1 nb1, _precede
        [{ Node.ctor (Handle.host {}) with _successors := [1] },
         { Node.ctor (Handle.host {}) with _dependents := [0], _num_dependents := 1 }] 0 1
        = some g1 ∧
      g1[0]? = some na1 ∧ g1[1]? = some nb1 ∧
      na1._successors = [1] ++ [1] ∧
      nb1._dependents = [0] ++ [0] ∧
      nb1._num_dependents = 1 + 1 := by
  obtain ⟨g1, na1, nb1, h1, h2, h3, h4, h5, h6, -⟩ := precede_effect
    [{ Node.ctor (Handle.host {}) with _successors := [1] },
     { Node.ctor (Handle.host {}) with _dependents := [0], _num_dependents := 1 }] 0 1
    { Node.ctor (Handle.host {}) with _successors := [1] }
    { Node.ctor (Handle.host {}) with _dependents := [0], _num_dependents := 1 }
    (by decide) rfl rfl
  exact ⟨g1, na1, nb1, h1, h2, h3, h4, h5, h6 (by decide) (by decide)⟩

/-! ## C2 -/

theorem fanIn_fst (k : Nat) : (fanIn k).map Prod.fst = (List.range k).map (fun i => i + 1) := by
  simp [fanIn, Function.comp_def]

theorem fanIn_snd (k : Nat) : ∀ c ∈ fanIn k, c.2 = 0 := by
  intro c hc
  simp only [fanIn, List.mem_map] at hc
  obtain ⟨i, -, rfl⟩ := hc
  rfl

theorem fanIn_nodup (k : Nat) : ((fanIn k).map Prod.fst).Nodup := by
  rw [fanIn_fst]
  exact (List.nodup_range k).map (fun x y h => Nat.succ.inj h)

theorem fanIn_not_mem (k : Nat) : (0 : NodePtr) ∉ (fanIn k).map Prod.fst := by
  rw [fanIn_fst]
  simp

theorem fanIn_length (k : Nat) : (fanIn k).length = k := by
  simp [fanIn]

/-- After the calls `fanIn k` on `k + 1` fresh nodes, node 0 has `k` dependents
and its counter is `k` wrapped to `int`. -/
theorem precedeAll_fanIn (h : Handle) (k : Nat) :
    (precedeAll (freshGraph (List.replicate (k + 1) h)) (fanIn k)).bind
        (fun g => (g[0]?).map (fun n => (n._num_dependents, n._dependents.length)))
      = some (wrapInt (k : Int), k) := by
  have hlive : ∀ c ∈ fanIn k,
      c.1 < (freshGraph (List.replicate (k + 1) h)).length ∧
      c.2 < (freshGraph (List.replicate (k + 1) h)).length := by
    intro c hc
    simp only [fanIn, List.mem_map, List.mem_range] at hc
    obtain ⟨i, hi, rfl⟩ := hc
    simp only [freshGraph, List.length_map, List.length_replicate]
    constructor
    · exact Nat.succ_lt_succ hi
    · exact Nat.succ_pos k
  obtain ⟨g, hg⟩ := precedeAll_total _ _ hlive
  have hlen : g.length = k + 1 := by
    rw [precedeAll_length hg]
    simp [freshGraph]
  have h0g : 0 < g.length := hlen ▸ Nat.succ_pos k
  have hg0 : g[0]? = some g[0] := List.getElem?_eq_getElem h0g
  obtain ⟨-, h2, h3⟩ := precedeAll_fresh_node hg hg0
  have hf : (fanIn k).filter (fun c => decide (c.2 = 0)) = fanIn k := by
    apply List.filter_eq_self.mpr
    intro c hc
    simp [fanIn_snd k c hc]
  rw [hf] at h2 h3
  rw [hg]
  simp only [Option.some_bind, hg0, Option.map_some', h2, h3, List.length_map, fanIn_length]

/-- C2 (counterexample): on 2147483649 fresh nodes, the 2147483648 calls
`i->_precede(0)` for `i = 1, ..., 2147483648` have pairwise distinct predecessors,
none of them node 0, and leave node 0 with 2147483648 dependents but the counter
at -2147483648. -/
theorem precede_k_predecessors_overflow :
    ((fanIn 2147483648).map Prod.fst).Nodup
    ∧ (0 : NodePtr) ∉ (fanIn 2147483648).map Prod.fst
    ∧ (∀ c ∈ fanIn 2147483648, c.2 = 0)
    ∧ (fanIn 2147483648).length = 2147483648
    ∧ (precedeAll (freshGraph (List.replicate (2147483648 + 1) (Handle.host {})))
          (fanIn 2147483648)).bind
        (fun g => (g[0]?).map (fun n => (n._num_dependents, n._dependents.length)))
      = some (-2147483648, 2147483648)
    ∧ (-2147483648 : Int) ≠ ((2147483648 : Nat) : Int) := by
  refine ⟨fanIn_nodup _, fanIn_not_mem _, fanIn_snd _, fanIn_length _, ?_, by decide⟩
  have h := precedeAll_fanIn (Handle.host {}) 2147483648
  rw [show wrapInt ((2147483648 : Nat) : Int) = -2147483648 from by decide] at h
  exact h

/-- C2 (amended): starting from freshly constructed nodes, after a sequence of
`_precede` calls on live nodes in which exactly `k` calls target `b`, with pairwise
distinct predecessors each different from `b`, the node `b` has `k` dependents, for
every `k`; the counter of `b` is `k` when `k < 2 ^ 31`. -/
theorem precede_k_predecessors (hs : List Handle) (calls : List (NodePtr × NodePtr))
    (b : NodePtr) (k : Nat)
    (hlive : ∀ c ∈ calls, c.1 < hs.length ∧ c.2 < hs.length)
    (hb : b < hs.length)
    (hk : (calls.filter (fun c => decide (c.2 = b))).length = k)
    (_hdistinct : ((calls.filter (fun c => decide (c.2 = b))).map Prod.fst).Nodup)
    (_hne : b ∉ (calls.filter (fun c => decide (c.2 = b))).map Prod.fst) :
    ∃ g nb, precedeAll (freshGraph hs) calls = some g ∧ g[b]? = some nb ∧
      nb._dependents.length = k ∧
      (k < 2 ^ 31 → nb._num_dependents = k) := by
  have hlive2 : ∀ c ∈ calls,
      c.1 < (freshGraph hs).length ∧ c.2 < (freshGraph hs).length := by
    intro c hc
    simpa [freshGraph] using hlive c hc
  obtain ⟨g, hg⟩ := precedeAll_total _ _ hlive2
  have hlen : g.length = hs.length := by
    rw [precedeAll_length hg]
    simp [freshGraph]
  have hbg : b < g.length := hlen ▸ hb
  have hgb : g[b]? = some g[b] := List.getElem?_eq_getElem hbg
  obtain ⟨-, h2, h3⟩ := precedeAll_fresh_node hg hgb
  refine ⟨g, g[b], hg, hgb, ?_, ?_⟩
  · rw [h2, List.length_map, hk]
  · intro hbound
    rw [h3, hk]
    exact wrapInt_natCast_of_lt hbound

/-- C2 (witness): `precede_k_predecessors` with two predecessors of node 0 and one
call aimed elsewhere. -/
theorem precede_k_predecessors_witness :
    ∃ g nb, precedeAll (freshGraph [Handle.host {}, Handle.host {}, Handle.host {}])
        [(1, 0), (1, 2), (2, 0)] = some g ∧ g[0]? = some nb ∧
      nb._dependents.length = 2 ∧ nb._num_dependents = ((2 : Nat) : Int) := by
  obtain ⟨g, nb, h1, h2, h3, h4⟩ := precede_k_predecessors
    [Handle.host {}, Handle.host {}, Handle.host {}]
    [(1, 0), (1, 2), (2, 0)] 0 2 (by decide) (by decide) (by decide) (by decide)
    (by decide)
  exact ⟨g, nb, h1, h2, h3, h4 (by decide)⟩

/-! ## C3 -/

/-- C3 (counterexample): on two fresh nodes, 2147483648 calls `0->_precede(1)`
leave node 1 with 2147483648 dependents but the counter at -2147483648. -/
theorem counter_ne_dependents_overflow :
    (precedeAll (freshGraph [Handle.host {}, Handle.host {}])
        (List.replicate 2147483648 (0, 1))).bind
        (fun g => (g[1]?).map (fun n => (n._num_dependents, n._dependents.length)))
      = some (-2147483648, 2147483648)
    ∧ (-2147483648 : Int) ≠ ((2147483648 : Nat) : Int) := by
  refine ⟨?_, by decide⟩
  have h := precedeAll_replicate [Handle.host {}, Handle.host {}] 0 1 2147483648
    (by decide) (by decide)
  rw [show wrapInt ((2147483648 : Nat) : Int) = -2147483648 from by decide] at h
  exact h

/-- C3 (amended): in every graph state reachable from freshly constructed nodes by
a finite sequence of `_precede` calls, every node with fewer than `2 ^ 31`
dependents has its counter equal to the length of its dependents. -/
theorem counter_eq_dependents (hs : List Handle) (calls : List (NodePtr × NodePtr))
    (g : Graph) (i : NodePtr) (n : Node)
    (h : precedeAll (freshGraph hs) calls = some g) (hn : g[i]? = some n)
    (hbound : n._dependents.length < 2 ^ 31) :
    n._num_dependents = n._dependents.length := by
  obtain ⟨-, h2, h3⟩ := precedeAll_fresh_node h hn
  rw [h2, List.length_map] at hbound
  rw [h3, h2, List.length_map]
  exact wrapInt_natCast_of_lt hbound

/-- C3 (witness): `counter_eq_dependents` at node 1 after two calls on two fresh
nodes. -/
theorem counter_eq_dependents_witness :
    precedeAll (freshGraph [Handle.host {}, Handle.pull {}]) [(0, 1), (0, 1)]
      = some [{ Node.ctor (Handle.host {}) with _successors := [1, 1] },
              { Node.ctor (Handle.pull {}) with _dependents := [0, 0], _num_dependents := 2 }]
    ∧ ({ Node.ctor (Handle.pull {}) with
          _dependents := [0, 0], _num_dependents := 2 } : Node)._num_dependents
      = (({ Node.ctor (Handle.pull {}) with
          _dependents := [0, 0], _num_dependents := 2 } : Node)._dependents.length : Nat) :=
  ⟨by decide,
   counter_eq_dependents [Handle.host {}, Handle.pull {}] [(0, 1), (0, 1)]
    [{ Node.ctor (Handle.host {}) with _successors := [1, 1] },
     { Node.ctor (Handle.pull {}) with _dependents := [0, 0], _num_dependents := 2 }]
    1 { Node.ctor (Handle.pull {}) with _dependents := [0, 0], _num_dependents := 2 }
    (by decide) (by decide) (by decide)⟩

/-! ## C4 -/

/-- C4: `_precede` performs no deduplication. In every state reachable from fresh
nodes by a sequence of `_precede` calls, for all nodes `a` and `b`, the number of
occurrences of `b` in `a`'s successors and the number of occurrences of `a` in
`b`'s dependents both equal the number of calls `a->_precede(b)` in the sequence. -/
theorem precede_no_dedup (hs : List Handle) (calls : List (NodePtr × NodePtr))
    (g : Graph) (a b : NodePtr) (na nb : Node)
    (h : precedeAll (freshGraph hs) calls = some g)
    (ha : g[a]? = some na) (hb : g[b]? = some nb) :
    na._successors.count b = calls.count (a, b) ∧
    nb._dependents.count a = calls.count (a, b) ∧
    na._successors.count b = nb._dependents.count a := by
  obtain ⟨h1, -, -⟩ := precedeAll_fresh_node h ha
  obtain ⟨-, h2, -⟩ := precedeAll_fresh_node h hb
  rw [h1, h2, count_filter_fst_map_snd, count_filter_snd_map_fst]
  exact ⟨rfl, rfl, rfl⟩

/-- C4 (witness): three duplicate calls `0->_precede(1)` among five calls leave
three occurrences on each side. -/
theorem precede_no_dedup_witness :
    precedeAll (freshGraph [Handle.host {}, Handle.host {}])
        [(0, 1), (1, 0), (0, 1), (0, 0), (0, 1)]
      = some [{ Node.ctor (Handle.host {}) with
                  _successors := [1, 1, 0, 1], _dependents := [1, 0], _num_dependents := 2 },
              { Node.ctor (Handle.host {}) with
                  _successors := [0], _dependents := [0, 0, 0], _num_dependents := 3 }]
    ∧ List.count 1 [1, 1, 0, 1] = List.count ((0, 1) : NodePtr × NodePtr)
        [(0, 1), (1, 0), (0, 1), (0, 0), (0, 1)]
    ∧ List.count 0 [0, 0, 0] = List.count ((0, 1) : NodePtr × NodePtr)
        [(0, 1), (1, 0), (0, 1), (0, 0), (0, 1)]
    ∧ List.count 1 [1, 1, 0, 1] = List.count 0 [0, 0, 0] :=
  ⟨by decide,
   precede_no_dedup [Handle.host {}, Handle.host {}]
    [(0, 1), (1, 0), (0, 1), (0, 0), (0, 1)]
    [{ Node.ctor (Handle.host {}) with
        _successors := [1, 1, 0, 1], _dependents := [1, 0], _num_dependents := 2 },
     { Node.ctor (Handle.host {}) with
        _successors := [0], _dependents := [0, 0, 0], _num_dependents := 3 }]
    0 1 _ _ (by decide) rfl rfl⟩

/-! ## C5 -/

/-- C5: the end-to-end scenario. Nodes `A` (a Pull over 100 floats), `B` (a Kernel)
and `C` (a Push over 100 floats with source `A`) are freshly built at 0, 1 and 2;
after `A->_precede(B)` then `B->_precede(C)` the counters of `A`, `B`, `C` are
0, 1, 1, the successors of `A` are `[B]`, the dependents of `B` are `[A]` and the
dependents of `C` are `[B]`. -/
theorem end_to_end_scenario (src tgt : Ptr) (sizeof_float : Nat) (k : Kernel) :
    ∃ g1 g2 A B C,
      _precede [Node.ctor (Handle.pull (Pull.ctor src 100 sizeof_float)),
                Node.ctor (Handle.kernel k),
                Node.ctor (Handle.push (Push.ctor tgt (some 0) 100 sizeof_float))] 0 1
        = some g1 ∧
      _precede g1 1 2 = some g2 ∧
      g2 = [A, B, C] ∧
      A._num_dependents = 0 ∧ B._num_dependents = 1 ∧ C._num_dependents = 1 ∧
      A._successors = [1] ∧ B._dependents = [0] ∧ C._dependents = [1] ∧
      A._handle = Handle.pull (Pull.ctor src 100 sizeof_float) ∧
      B._handle = Handle.kernel k ∧
      C._handle = Handle.push (Push.ctor tgt (some 0) 100 sizeof_float) :=
  ⟨_, _, _, _, _, rfl, rfl, rfl, rfl, rfl, rfl, rfl, rfl, rfl, rfl, rfl, rfl⟩

/-! ## C6 -/

/-- C6: the Pull payload constructed from a host source `data` of `N` elements of
size `s` has `h_size` equal to `N * s` in `size_t` arithmetic (the product modulo
`2 ^ 64`, which is `N * s` itself whenever that fits a `size_t`), its host pointer
is `data`, and its device pointer is null. -/
theorem pull_ctor_fields (data : Ptr) (N s : Nat) :
    (Pull.ctor data N s).h_size = (N * s) % 2 ^ 64 ∧
    (N * s < 2 ^ 64 → (Pull.ctor data N s).h_size = N * s) ∧
    (Pull.ctor data N s).h_data = data ∧
    (Pull.ctor data N s).d_data = nullptr := by
  refine ⟨rfl, ?_, rfl, rfl⟩
  intro h
  exact Nat.mod_eq_of_lt h

/-- C6 (witness): a Pull over 100 elements of size 4 has `h_size` 400. -/
theorem pull_ctor_fields_witness :
    (Pull.ctor 4096 100 4).h_size = 400 ∧ (Pull.ctor 4096 100 4).h_data = 4096 ∧
    (Pull.ctor 4096 100 4).d_data = nullptr :=
  ⟨(pull_ctor_fields 4096 100 4).2.1 (by decide), (pull_ctor_fields 4096 100 4).2.2.1,
   (pull_ctor_fields 4096 100 4).2.2.2⟩

/-! ## C7 -/

/-- C7: the Push payload constructed from `(tgt, src, N)` for elements of size `s`
has `h_size` equal to `N * s` in `size_t` arithmetic (the product modulo `2 ^ 64`,
which is `N * s` itself whenever that fits a `size_t`), its host pointer is `tgt`,
and its source is `src`, also when `src` is null. -/
theorem push_ctor_fields (tgt : Ptr) (src : Option NodePtr) (N s : Nat) :
    (Push.ctor tgt src N s).h_size = (N * s) % 2 ^ 64 ∧
    (N * s < 2 ^ 64 → (Push.ctor tgt src N s).h_size = N * s) ∧
    (Push.ctor tgt src N s).h_data = tgt ∧
    (Push.ctor tgt src N s).source = src ∧
    (Push.ctor tgt none N s).source = none := by
  refine ⟨rfl, ?_, rfl, rfl, rfl⟩
  intro h
  exact Nat.mod_eq_of_lt h

/-- C7 (witness): a Push over 100 elements of size 4 from node 0 has `h_size` 400. -/
theorem push_ctor_fields_witness :
    (Push.ctor 8192 (some 0) 100 4).h_size = 400 ∧
    (Push.ctor 8192 (some 0) 100 4).h_data = 8192 ∧
    (Push.ctor 8192 (some 0) 100 4).source = some 0 :=
  ⟨(push_ctor_fields 8192 (some 0) 100 4).2.1 (by decide),
   (push_ctor_fields 8192 (some 0) 100 4).2.2.1,
   (push_ctor_fields 8192 (some 0) 100 4).2.2.2.1⟩

/-! ## C8 -/

/-- C8: destroying a Pull payload `p`, alone or as the payload of the node at `a`
of any graph, makes exactly the calls `cudaSetDevice(p.device)` then
`cudaFree(p.d_data)` when `p.d_data` is non-null and no device call when it is
null, whatever the number `k` of Push payloads of the graph whose source is `a`. -/
theorem pull_dtor_trace (g : Graph) (a : NodePtr) (n : Node) (p : Pull) (k : Nat)
    (hn : g[a]? = some n) (hp : n._handle = Handle.pull p)
    (_hk : pushReferences g a = k) :
    (p.d_data ≠ nullptr →
      p.dtor = [DeviceCall.cudaSetDevice p.device, DeviceCall.cudaFree p.d_data] ∧
      destroy g a = some [DeviceCall.cudaSetDevice p.device, DeviceCall.cudaFree p.d_data]) ∧
    (p.d_data = nullptr → p.dtor = [] ∧ destroy g a = some []) := by
  have hd : destroy g a = some p.dtor := by
    simp [destroy, hn, Node.dtor, hp, Handle.dtor]
  rw [hd]
  constructor
  · intro h
    simp [Pull.dtor, h]
  · intro h
    simp [Pull.dtor, h]

/-- C8 (witness): a Pull node on device 1 holding the buffer 7, referenced by two
Push nodes, is destroyed with one `cudaSetDevice(1)` then one `cudaFree(7)`. -/
theorem pull_dtor_trace_witness :
    pushReferences
      [Node.ctor (Handle.pull { device := 1, d_data := 7 }),
       Node.ctor (Handle.push (Push.ctor 8192 (some 0) 100 4)),
       Node.ctor (Handle.push (Push.ctor 9000 (some 0) 100 4))] 0 = 2 ∧
    destroy
      [Node.ctor (Handle.pull { device := 1, d_data := 7 }),
       Node.ctor (Handle.push (Push.ctor 8192 (some 0) 100 4)),
       Node.ctor (Handle.push (Push.ctor 9000 (some 0) 100 4))] 0
      = some [DeviceCall.cudaSetDevice 1, DeviceCall.cudaFree 7] :=
  ⟨by decide,
   ((pull_dtor_trace
      [Node.ctor (Handle.pull { device := 1, d_data := 7 }),
       Node.ctor (Handle.push (Push.ctor 8192 (some 0) 100 4)),
       Node.ctor (Handle.push (Push.ctor 9000 (some 0) 100 4))] 0
      (Node.ctor (Handle.pull { device := 1, d_data := 7 }))
      { device := 1, d_data := 7 } 2 rfl rfl (by decide)).1 (by decide)).2⟩

/-! ## C9 -/

/-- C9: a freshly constructed node, for each of the four payload kinds (Host, Pull,
Push, Kernel), has the counter at 0 and empty successors and dependents. -/
theorem node_ctor_fresh (h : Host) (pl : Pull) (ps : Push) (k : Kernel) :
    ((Node.ctor (Handle.host h))._num_dependents = 0 ∧
      (Node.ctor (Handle.host h))._successors = [] ∧
      (Node.ctor (Handle.host h))._dependents = []) ∧
    ((Node.ctor (Handle.pull pl))._num_dependents = 0 ∧
      (Node.ctor (Handle.pull pl))._successors = [] ∧
      (Node.ctor (Handle.pull pl))._dependents = []) ∧
    ((Node.ctor (Handle.push ps))._num_dependents = 0 ∧
      (Node.ctor (Handle.push ps))._successors = [] ∧
      (Node.ctor (Handle.push ps))._dependents = []) ∧
    ((Node.ctor (Handle.kernel k))._num_dependents = 0 ∧
      (Node.ctor (Handle.kernel k))._successors = [] ∧
      (Node.ctor (Handle.kernel k))._dependents = []) :=
  ⟨⟨rfl, rfl, rfl⟩, ⟨rfl, rfl, rfl⟩, ⟨rfl, rfl, rfl⟩, ⟨rfl, rfl, rfl⟩⟩

/-! ## C10 -/

/-- C10 (counterexample): on one fresh node, 2147483647 self-edges
`0->_precede(0)` leave the counter at `INT_MAX`; one more self-edge completes and
leaves the counter at -2147483648, which is not an increase by 1. -/
theorem precede_self_counter_overflow :
    (precedeAll (freshGraph [Handle.host {}]) (List.replicate 2147483647 (0, 0))).bind
        (fun g => (g[0]?).map (fun n => (n._num_dependents, n._dependents.length)))
      = some (2147483647, 2147483647)
    ∧ ((precedeAll (freshGraph [Handle.host {}]) (List.replicate 2147483647 (0, 0))).bind
        (fun g => _precede g 0 0)).bind
        (fun g => (g[0]?).map (fun n => (n._num_dependents, n._dependents.length)))
      = some (-2147483648, 2147483648)
    ∧ (-2147483648 : Int) ≠ 2147483647 + 1 := by
  refine ⟨?_, ?_, by decide⟩
  · have h := precedeAll_replicate [Handle.host {}] 0 0 2147483647 (by decide) (by decide)
    rw [show wrapInt ((2147483647 : Nat) : Int) = 2147483647 from by decide] at h
    exact h
  · have h := precedeAll_replicate_then [Handle.host {}] 0 0 2147483647
      (by decide) (by decide)
    rw [show wrapInt ((2147483647 + 1 : Nat) : Int) = -2147483648 from by decide] at h
    exact h

/-- C10 (amended): `_precede` validates nothing and completes on every pair of
live nodes, a self-edge and an already-linked pair included. For `a == b` it leaves
`a` with `a` appended to its own successors and to its own dependents, and with its
counter increased by exactly 1 when the counter is an `int` below `INT_MAX`; at
`INT_MAX` the counter wraps to `INT_MIN`. -/
theorem precede_total_self_edge (g : Graph) (a b : NodePtr) (na : Node)
    (hb : b < g.length) (ha : g[a]? = some na) :
    (∃ g1, _precede g a b = some g1) ∧
    ∃ g2 na2, _precede g a a = some g2 ∧ g2[a]? = some na2 ∧
      na2._successors = na._successors ++ [a] ∧
      na2._dependents = na._dependents ++ [a] ∧
      (INT_MIN ≤ na._num_dependents → na._num_dependents < INT_MAX →
        na2._num_dependents = na._num_dependents + 1) ∧
      (na._num_dependents = INT_MAX → na2._num_dependents = INT_MIN) := by
  have hal : a < g.length := (List.getElem?_eq_some_iff.mp ha).1
  refine ⟨precede_total g a b hal hb, ?_⟩
  obtain ⟨g2, hg2⟩ := precede_total g a a hal hal
  refine ⟨g2, precedeNode a a a na, hg2, ?_, ?_, ?_, ?_, ?_⟩
  · rw [precede_getElem? hg2, ha]
    rfl
  · simp
  · simp
  · intro hmin hmax
    simp only [precedeNode_num_dependents, if_true]
    exact fetch_add_one_of_lt hmin hmax
  · intro hmax
    simp only [precedeNode_num_dependents, if_true, hmax]
    exact fetch_add_INT_MAX

/-- C10 (witness): on two nodes already linked by `0->_precede(1)`, the duplicate
call `0->_precede(1)` completes, and the self-edge `0->_precede(0)` leaves node 0
with itself appended to both lists and the counter raised from 0 to 1. -/
theorem precede_total_self_edge_witness :
    (∃ g1, _precede
        [{ Node.ctor (Handle.host {}) with _successors := [1] },
         { Node.ctor (Handle.host {}) with _dependents := [0], _num_dependents := 1 }] 0 1
        = some g1) ∧
    ∃ g2 na2, _precede
        [{ Node.ctor (Handle.host {}) with _successors := [1] },
         { Node.ctor (Handle.host {}) with _dependents := [0], _num_dependents := 1 }] 0 0
        = some g2 ∧ g2[0]? = some na2 ∧
      na2._successors = [1] ++ [0] ∧
      na2._dependents = [] ++ [0] ∧
      (INT_MIN ≤ (0 : Int) → (0 : Int) < INT_MAX → na2._num_dependents = 0 + 1) ∧
      ((0 : Int) = INT_MAX → na2._num_dependents = INT_MIN) :=
  precede_total_self_edge
    [{ Node.ctor (Handle.host {}) with _successors := [1] },
     { Node.ctor (Handle.host {}) with _dependents := [0], _num_dependents := 1 }] 0 1
    { Node.ctor (Handle.host {}) with _successors := [1] } (by decide) rfl

/-! ## C11 -/

/-- C11 (the code at a failing input): a Pull payload on device 0 holding the
device buffer 7 is copied by the implicit copy constructor. The copy and the
original are two payloads with the same non-null `d_data`, and their two
destructors release the buffer 7 twice. The implicit copy assignment does the
same, and drops the buffer 9 of its target, which no destructor releases. -/
theorem pull_copy_double_free :
    (Pull.copy { d_data := 7 }).d_data = 7 ∧
    (7 : Ptr) ≠ nullptr ∧
    Pull.dtor_all [Pull.copy { d_data := 7 }, { d_data := 7 }]
      = [DeviceCall.cudaSetDevice 0, DeviceCall.cudaFree 7,
         DeviceCall.cudaSetDevice 0, DeviceCall.cudaFree 7] ∧
    (Pull.dtor_all [Pull.copy { d_data := 7 }, { d_data := 7 }]).count
      (DeviceCall.cudaFree 7) = 2 ∧
    (Pull.assign { d_data := 9 } { d_data := 7 }).d_data = 7 ∧
    (Pull.dtor_all [Pull.assign { d_data := 9 } { d_data := 7 }, { d_data := 7 }]).count
      (DeviceCall.cudaFree 7) = 2 ∧
    (Pull.dtor_all [Pull.assign { d_data := 9 } { d_data := 7 }, { d_data := 7 }]).count
      (DeviceCall.cudaFree 9) = 0 := by
  decide

/-! ## C12 -/

/-- C14: the Pull payload constructed from a host source and an element count has
`device == 0` and `d_size == 0`; a default-constructed Pull has `device == 0`, null
host and device pointers and both sizes 0. -/
theorem pull_ctor_defaults (data : Ptr) (N s : Nat) :
    (Pull.ctor data N s).device = 0 ∧
    (Pull.ctor data N s).d_size = 0 ∧
    Pull.ctor_default.device = 0 ∧
    Pull.ctor_default.h_data = nullptr ∧
    Pull.ctor_default.d_data = nullptr ∧
    Pull.ctor_default.h_size = 0 ∧
    Pull.ctor_default.d_size = 0 :=
  ⟨rfl, rfl, rfl, rfl, rfl, rfl, rfl⟩

/-! ## C15 -/

/-- C15: the frame of `_precede`. For distinct live nodes `a` and `b` of any graph,
`a->_precede(b)` completes and keeps the number of nodes; every node other than
`a` and `b` is unchanged; the dependents and the counter of `a` and the successors
of `b` are unchanged; the name and the payload of every node are unchanged. -/
theorem precede_frame (g : Graph) (a b : NodePtr) (na nb : Node)
    (hab : a ≠ b) (ha : g[a]? = some na) (hb : g[b]? = some nb) :
    ∃ g1 na1 nb1, _precede g a b = some g1 ∧ g1.length = g.length ∧
      g1[a]? = some na1 ∧ g1[b]? = some nb1 ∧
      (∀ i, i ≠ a → i ≠ b → g1[i]? = g[i]?) ∧
      na1._dependents = na._dependents ∧
      na1._num_dependents = na._num_dependents ∧
      nb1._successors = nb._successors ∧
      (∀ (i : Nat) (n : Node), g[i]? = some n →
        ∃ n1 : Node, g1[i]? = some n1 ∧ n1._name = n._name ∧ n1._handle = n._handle) := by
  obtain ⟨g1, hg1⟩ := precede_total g a b (List.getElem?_eq_some_iff.mp ha).1
    (List.getElem?_eq_some_iff.mp hb).1
  have hba : b ≠ a := fun e => hab e.symm
  refine ⟨g1, precedeNode a b a na, precedeNode a b b nb, hg1, precede_length hg1,
    ?_, ?_, ?_, ?_, ?_, ?_, ?_⟩
  · rw [precede_getElem? hg1, ha]
    rfl
  · rw [precede_getElem? hg1, hb]
    rfl
  · intro i hia hib
    rw [precede_getElem? hg1]
    cases hi : g[i]? with
    | none => rfl
    | some n =>
      simp only [Option.map_some', Option.some.injEq]
      unfold precedeNode
      simp [hia, hib]
  · simp [hab]
  · simp [hab]
  · simp [hba]
  · intro i n hn
    refine ⟨precedeNode a b i n, ?_, precedeNode_name a b i n, precedeNode_handle a b i n⟩
    rw [precede_getElem? hg1, hn]
    rfl

/-- C15 (witness): `0->_precede(2)` on three nodes that already carry edges, a
name and payloads leaves node 1 and all the framed fields as they were. -/
theorem precede_frame_witness :
    ∃ g1 na1 nb1,
      _precede
        [{ _name := "A", _handle := Handle.pull (Pull.ctor 4096 100 4),
           _successors := [1], _dependents := [], _num_dependents := 0 },
         { _name := "B", _handle := Handle.kernel {},
           _successors := [2], _dependents := [0], _num_dependents := 1 },
         { _name := "C", _handle := Handle.push (Push.ctor 8192 (some 0) 100 4),
           _successors := [], _dependents := [1], _num_dependents := 1 }] 0 2 = some g1 ∧
      g1.length = 3 ∧ g1[0]? = some na1 ∧ g1[2]? = some nb1 ∧
      g1[1]? = some ({ _name := "B", _handle := Handle.kernel {},
                       _successors := [2], _dependents := [0], _num_dependents := 1 } : Node) ∧
      na1._dependents = [] ∧ na1._num_dependents = 0 ∧ nb1._successors = [] ∧
      na1._name = "A" ∧ nb1._handle = Handle.push (Push.ctor 8192 (some 0) 100 4) := by
  obtain ⟨g1, na1, nb1, h1, h2, h3, h4, h5, h6, h7, h8, h9⟩ := precede_frame
    [{ _name := "A", _handle := Handle.pull (Pull.ctor 4096 100 4),
       _successors := [1], _dependents := [], _num_dependents := 0 },
     { _name := "B", _handle := Handle.kernel {},
       _successors := [2], _dependents := [0], _num_dependents := 1 },
     { _name := "C", _handle := Handle.push (Push.ctor 8192 (some 0) 100 4),
       _successors := [], _dependents := [1], _num_dependents := 1 }] 0 2
    { _name := "A", _handle := Handle.pull (Pull.ctor 4096 100 4),
      _successors := [1], _dependents := [], _num_dependents := 0 }
    { _name := "C", _handle := Handle.push (Push.ctor 8192 (some 0) 100 4),
      _successors := [], _dependents := [1], _num_dependents := 1 }
    (by decide) rfl rfl
  refine ⟨g1, na1, nb1, h1, h2, h3, h4, ?_, h6, h7, h8, ?_, ?_⟩
  · rw [h5 1 (by decide) (by decide)]
    rfl
  · obtain ⟨n1, hn1, hname, -⟩ := h9 0 _ rfl
    rw [h3] at hn1
    rw [Option.some.inj hn1]
    exact hname
  · obtain ⟨n1, hn1, -, hhandle⟩ := h9 2 _ rfl
    rw [h4] at hn1
    rw [Option.some.inj hn1]
    exact hhandle

/-! ## C16 -/

theorem sum_map_set (f : Node → Nat) (l : List Node) (i : Nat) (x n : Node)
    (h : l[i]? = some n) :
    ((l.set i x).map f).sum + f n = (l.map f).sum + f x := by
  induction l generalizing i with
  | nil => simp at h
  | cons y ys ih =>
    cases i with
    | zero =>
      simp only [List.getElem?_cons_zero, Option.some.injEq] at h
      subst h
      simp only [List.set_cons_zero, List.map_cons, List.sum_cons]
      omega
    | succ j =>
      simp only [List.getElem?_cons_succ] at h
      have := ih j h
      simp only [List.set_cons_succ, List.map_cons, List.sum_cons]
      omega

/-- One `_precede` call adds one to the total length of the successor lists and
one to the total length of the dependent lists. -/
theorem precede_sums {g g1 : Graph} {a b : NodePtr} (h : _precede g a b = some g1) :
    (g1.map (fun n => n._successors.length)).sum
      = (g.map (fun n => n._successors.length)).sum + 1 ∧
    (g1.map (fun n => n._dependents.length)).sum
      = (g.map (fun n => n._dependents.length)).sum + 1 := by
  unfold _precede at h
  split at h
  · exact absurd h (by simp)
  · rename_i na hna
    simp only at h
    split at h
    · exact absurd h (by simp)
    · rename_i nb hnb
      split at h
      · exact absurd h (by simp)
      · rename_i nb2 hnb2
        simp only [Option.some.injEq] at h
        subst h
        constructor
        · have e1 := sum_map_set (fun n => n._successors.length) _ _
            { nb2 with _num_dependents := fetch_add nb2._num_dependents 1 } _ hnb2
          have e2 := sum_map_set (fun n => n._successors.length) _ _
            { nb with _dependents := nb._dependents ++ [a] } _ hnb
          have e3 := sum_map_set (fun n => n._successors.length) _ _
            { na with _successors := na._successors ++ [b] } _ hna
          simp only [List.length_append, List.length_singleton] at e1 e2 e3
          omega
        · have e1 := sum_map_set (fun n => n._dependents.length) _ _
            { nb2 with _num_dependents := fetch_add nb2._num_dependents 1 } _ hnb2
          have e2 := sum_map_set (fun n => n._dependents.length) _ _
            { nb with _dependents := nb._dependents ++ [a] } _ hnb
          have e3 := sum_map_set (fun n => n._dependents.length) _ _
            { na with _successors := na._successors ++ [b] } _ hna
          simp only [List.length_append, List.length_singleton] at e1 e2 e3
          omega

/-- A sequence of `_precede` calls adds its length to the total length of the
successor lists and to the total length of the dependent lists. -/
theorem precedeAll_sums {calls : List (NodePtr × NodePtr)} {g g1 : Graph}
    (h : precedeAll g calls = some g1) :
    (g1.map (fun n => n._successors.length)).sum
      = (g.map (fun n => n._successors.length)).sum + calls.length ∧
    (g1.map (fun n => n._dependents.length)).sum
      = (g.map (fun n => n._dependents.length)).sum + calls.length := by
  induction calls generalizing g with
  | nil =>
    simp only [precedeAll, Option.some.injEq] at h
    subst h
    exact ⟨rfl, rfl⟩
  | cons c cs ih =>
    obtain ⟨a, b⟩ := c
    simp only [precedeAll] at h
    split at h
    · exact absurd h (by simp)
    · rename_i g2 hg2
      have h1 := precede_sums hg2
      have h2 := ih h
      simp only [List.length_cons]
      omega

theorem freshGraph_sums (hs : List Handle) :
    ((freshGraph hs).map (fun n => n._successors.length)).sum = 0 ∧
    ((freshGraph hs).map (fun n => n._dependents.length)).sum = 0 := by
  induction hs with
  | nil => exact ⟨rfl, rfl⟩
  | cons x xs ih =>
    have e : freshGraph (x :: xs) = Node.ctor x :: freshGraph xs := rfl
    rw [e]
    simp only [List.map_cons, List.sum_cons, ih.1, ih.2]
    exact ⟨rfl, rfl⟩

/-- In a graph reached from fresh nodes in which every node has fewer than
`2 ^ 31` dependents, the counters add up to the total length of the dependent
lists. -/
theorem precedeAll_fresh_sum_counters {hs : List Handle}
    {calls : List (NodePtr × NodePtr)} {g : Graph}
    (h : precedeAll (freshGraph hs) calls = some g)
    (hbound : ∀ n ∈ g, n._dependents.length < 2 ^ 31) :
    (g.map Node._num_dependents).sum
      = (((g.map (fun n => n._dependents.length)).sum : Nat) : Int) := by
  have e : g.map Node._num_dependents
      = (g.map (fun n => n._dependents.length)).map (fun k : Nat => (k : Int)) := by
    rw [List.map_map]
    apply List.map_congr_left
    intro n hn
    obtain ⟨i, hi⟩ := List.getElem?_of_mem hn
    obtain ⟨-, h2, h3⟩ := precedeAll_fresh_node h hi
    have hb := hbound n hn
    rw [h2, List.length_map] at hb
    simp only [Function.comp_apply]
    rw [h3, h2, List.length_map]
    exact wrapInt_natCast_of_lt hb
  rw [e, Nat.cast_list_sum]

/-- After `k` calls `0->_precede(1)` on two fresh nodes, both totals of list
lengths are `k` and the counters add up to `k` wrapped to `int`. -/
theorem precedeAll_replicate_sums (h0 h1 : Handle) (k : Nat) :
    (precedeAll (freshGraph [h0, h1]) (List.replicate k (0, 1))).map
        (fun g => ((g.map (fun n => n._successors.length)).sum,
                   (g.map (fun n => n._dependents.length)).sum,
                   (g.map Node._num_dependents).sum))
      = some (k, k, wrapInt (k : Int)) := by
  have hl2 : (freshGraph [h0, h1]).length = 2 := rfl
  have hlive : ∀ c ∈ List.replicate k ((0, 1) : NodePtr × NodePtr),
      c.1 < (freshGraph [h0, h1]).length ∧ c.2 < (freshGraph [h0, h1]).length := by
    intro c hc
    rw [List.eq_of_mem_replicate hc, hl2]
    exact ⟨by decide, by decide⟩
  obtain ⟨g, hg⟩ := precedeAll_total _ _ hlive
  have hlen : g.length = 2 := by
    rw [precedeAll_length hg, hl2]
  obtain ⟨x, y, rfl⟩ := List.length_eq_two.mp hlen
  obtain ⟨hs1, hs2⟩ := precedeAll_sums hg
  rw [(freshGraph_sums [h0, h1]).1, List.length_replicate, Nat.zero_add] at hs1
  rw [(freshGraph_sums [h0, h1]).2, List.length_replicate, Nat.zero_add] at hs2
  have hx1 : ([x, y] : Graph)[0]? = some x := rfl
  have hy1 : ([x, y] : Graph)[1]? = some y := rfl
  obtain ⟨-, -, hx⟩ := precedeAll_fresh_node hg hx1
  obtain ⟨-, -, hy⟩ := precedeAll_fresh_node hg hy1
  have hf0 : (List.replicate k ((0, 1) : NodePtr × NodePtr)).filter
      (fun c => decide (c.2 = 0)) = [] := by
    apply List.filter_eq_nil_iff.mpr
    intro c hc
    rw [List.eq_of_mem_replicate hc]
    decide
  have hf1 : (List.replicate k ((0, 1) : NodePtr × NodePtr)).filter
      (fun c => decide (c.2 = 1)) = List.replicate k (0, 1) := by
    apply List.filter_eq_self.mpr
    intro c hc
    rw [List.eq_of_mem_replicate hc]
    decide
  rw [hf0] at hx
  rw [hf1, List.length_replicate] at hy
  have hx0 : x._num_dependents = 0 := by
    rw [hx]
    decide
  have hsum : (List.map Node._num_dependents [x, y]).sum = wrapInt (k : Int) := by
    show x._num_dependents + (y._num_dependents + 0) = wrapInt (k : Int)
    rw [hx0, hy, Int.add_zero, Int.zero_add]
  rw [hg, Option.map_some', hs1, hs2, hsum]

/-- C16 (counterexample): on two fresh nodes, the 2147483648 calls `0->_precede(1)`
leave the successor lists with 2147483648 entries in total and the dependent lists
with 2147483648 entries in total, but the counters add up to -2147483648. -/
theorem edge_count_counter_overflow :
    (precedeAll (freshGraph [Handle.host {}, Handle.host {}])
        (List.replicate 2147483648 (0, 1))).map
        (fun g => ((g.map (fun n => n._successors.length)).sum,
                   (g.map (fun n => n._dependents.length)).sum,
                   (g.map Node._num_dependents).sum))
      = some (2147483648, 2147483648, -2147483648)
    ∧ (List.replicate 2147483648 ((0, 1) : NodePtr × NodePtr)).length = 2147483648
    ∧ (-2147483648 : Int) ≠ ((2147483648 : Nat) : Int) := by
  refine ⟨?_, List.length_replicate _ _, by decide⟩
  have h := precedeAll_replicate_sums (Handle.host {}) (Handle.host {}) 2147483648
  rw [show wrapInt ((2147483648 : Nat) : Int) = -2147483648 from by decide] at h
  exact h

/-- C16 (amended): in every graph state reachable from freshly constructed nodes
by a sequence of `m` `_precede` calls (any endpoints, self-edges and duplicates
included), the lengths of the successor lists add up to `m` and the lengths of the
dependent lists add up to `m`; the counters add up to `m` when no node has
`2 ^ 31` or more dependents, in particular when `m < 2 ^ 31`. -/
theorem edge_count_conservation (hs : List Handle) (calls : List (NodePtr × NodePtr))
    (g : Graph) (h : precedeAll (freshGraph hs) calls = some g) :
    (g.map (fun n => n._successors.length)).sum = calls.length ∧
    (g.map (fun n => n._dependents.length)).sum = calls.length ∧
    ((∀ n ∈ g, n._dependents.length < 2 ^ 31) →
      (g.map Node._num_dependents).sum = (calls.length : Int)) ∧
    (calls.length < 2 ^ 31 →
      (g.map Node._num_dependents).sum = (calls.length : Int)) := by
  obtain ⟨hs1, hs2⟩ := precedeAll_sums h
  rw [(freshGraph_sums hs).1, Nat.zero_add] at hs1
  rw [(freshGraph_sums hs).2, Nat.zero_add] at hs2
  have hc : (∀ n ∈ g, n._dependents.length < 2 ^ 31) →
      (g.map Node._num_dependents).sum = (calls.length : Int) := by
    intro hbound
    rw [precedeAll_fresh_sum_counters h hbound, hs2]
  refine ⟨hs1, hs2, hc, ?_⟩
  intro hm
  apply hc
  intro n hn
  obtain ⟨i, hi⟩ := List.getElem?_of_mem hn
  obtain ⟨-, h2, -⟩ := precedeAll_fresh_node h hi
  rw [h2, List.length_map]
  exact Nat.lt_of_le_of_lt (List.length_filter_le _ _) hm

/-- C16 (witness): four calls on three fresh nodes, a self-edge and a duplicate
among them, leave all three totals at 4. -/
theorem edge_count_conservation_witness :
    precedeAll (freshGraph [Handle.host {}, Handle.pull {}, Handle.push {}])
        [(0, 1), (1, 1), (0, 1), (2, 0)]
      = some [{ Node.ctor (Handle.host {}) with
                  _successors := [1, 1], _dependents := [2], _num_dependents := 1 },
              { Node.ctor (Handle.pull {}) with
                  _successors := [1], _dependents := [0, 1, 0], _num_dependents := 3 },
              { Node.ctor (Handle.push {}) with _successors := [0] }]
    ∧ [[1, 1], [1], [0]].map List.length = [2, 1, 1]
    ∧ ([2, 1, 1] : List Nat).sum = 4
    ∧ ([1, 3, 0] : List Nat).sum = 4
    ∧ ([1, 3, 0] : List Int).sum = ((4 : Nat) : Int) :=
  ⟨by decide, by decide, by decide, by decide,
   (edge_count_conservation [Handle.host {}, Handle.pull {}, Handle.push {}]
      [(0, 1), (1, 1), (0, 1), (2, 0)]
      [{ Node.ctor (Handle.host {}) with
          _successors := [1, 1], _dependents := [2], _num_dependents := 1 },
       { Node.ctor (Handle.pull {}) with
          _successors := [1], _dependents := [0, 1, 0], _num_dependents := 3 },
       { Node.ctor (Handle.push {}) with _successors := [0] }]
      (by decide)).2.2.2 (by decide)⟩

end hf
